import Mathlib

/-!
Shallow embedding of the smart music manager (`src/main.py`), centred on the
filename-parsing heuristic engine of `SmartMusicManager`: the tokenizer
(`_split_filename`), the artist/title classifier (`_is_likely_artist`,
`_is_likely_song_title`), the filename parser (`_parse_filename_intelligently`),
the title cleaner (`_clean_title`), the metadata resolver (`extract_metadata`),
the per-file processing step (`process_directory`), and the cover search
(`search_cover`).  The corpus-wide `artist_candidates` counter is threaded in
as an explicit frequency function `freq : String → Nat`.
-/

/-- The separator class of `_split_filename` and of the cleanup regexes:
`[~\-_\s\.—–]` (tilde, hyphen, underscore, whitespace, dot, em dash, en dash). -/
def sepChar (c : Char) : Bool :=
  c == '~' || c == '-' || c == '_' || c == '.' || c == '—' || c == '–' || c.isWhitespace

/-- The `[-~\s]` class used by the second `_clean_title` pattern. -/
def padChar (c : Char) : Bool :=
  c == '-' || c == '~' || c.isWhitespace

/-- Model of Python's `\w` (regex word character) restricted to the scripts
occurring in this program: ASCII alphanumerics, underscore, and CJK unified
ideographs. -/
def isWordChar (c : Char) : Bool :=
  c.isAlphanum || c == '_' || (0x4E00 ≤ c.toNat && c.toNat ≤ 0x9FFF)

/-- `startsWithL a s` holds when the pattern `a` is a prefix of `s`. -/
def startsWithL : List Char → List Char → Bool
  | [], _ => true
  | _ :: _, [] => false
  | a :: as, b :: bs => a == b && startsWithL as bs

/-- `occursIn a s` models Python's substring containment test `a in s`. -/
def occursIn (a : List Char) : List Char → Bool
  | [] => startsWithL a []
  | c :: r => startsWithL a (c :: r) || occursIn a r

/-- String-level substring containment, for the keyword checks. -/
def occursInStr (a s : String) : Bool :=
  occursIn a.toList s.toList

/-- Drop a leading run of characters satisfying `p` (one `re.sub` of
`^[...]+` with the empty string, or the front half of `str.strip`). -/
def dropLeadBy (p : Char → Bool) (s : List Char) : List Char :=
  s.dropWhile p

/-- Drop a trailing run of characters satisfying `p` (one `re.sub` of
`[...]+$` with the empty string, or the back half of `str.strip`). -/
def dropTrailBy (p : Char → Bool) (s : List Char) : List Char :=
  (s.reverse.dropWhile p).reverse

/-- Python's `str.strip()`: remove leading and trailing whitespace. -/
def stripList (s : List Char) : List Char :=
  dropTrailBy Char.isWhitespace (dropLeadBy Char.isWhitespace s)

/-- String-level `str.strip()`. -/
def stripStr (s : String) : String :=
  String.mk (stripList s.toList)

/-- The last element, as the head of the reversal. -/
def lastOpt (s : List Char) : Option Char :=
  s.reverse.head?

/-- Tokenizer worker: split on runs of separator characters, keeping the
non-empty segments in order (`re.split(r'[~\-_\s\.—–]+', ...)` followed by
stripping and discarding empty parts; segments contain no separator, so the
per-part `strip` of the source is the identity). -/
def splitSepsGo : List Char → List Char → List String
  | acc, [] => if acc.isEmpty then [] else [String.mk acc.reverse]
  | acc, c :: r =>
    if sepChar c then
      if acc.isEmpty then splitSepsGo [] r
      else String.mk acc.reverse :: splitSepsGo [] r
    else splitSepsGo (c :: acc) r

/-- `_split_filename`: tokenize a filename stem. -/
def splitFilename (s : String) : List String :=
  splitSepsGo [] s.toList

/-- The `common_artists` set of the manager. -/
def commonArtists : List String :=
  ["周杰伦", "林俊杰", "孙燕姿", "陈奕迅", "王菲", "梁静茹",
   "Taylor Swift", "Ed Sheeran", "Adele", "Bruno Mars",
   "邓紫棋", "李荣浩", "薛之谦", "毛不易", "华晨宇"]

/-- The `artist_keywords` list of `_is_likely_artist`. -/
def artistKeywords : List String :=
  ["乐队", "组合", "乐团", "合唱团", "&", "and", "feat", "ft", "featuring"]

/-- The `special_chars` list of `_is_likely_song_title`. -/
def specialTitleChars : List Char :=
  ['(', ')', '[', ']', '《', '》', '！', '？']

/-- `_is_likely_artist`: member of the known-artist set, or contains a group
or feature keyword, or corpus frequency above 2, or a 2–4 character token with
no digits. -/
def isLikelyArtist (freq : String → Nat) (t : String) : Bool :=
  commonArtists.contains t
  || artistKeywords.any (fun k => occursInStr k t)
  || decide (freq t > 2)
  || (decide (2 ≤ t.length) && decide (t.length ≤ 4)
       && !(t.toList.any (fun c => c.isDigit)))

/-- `_is_likely_song_title`: length at least 3 and not artist-like, or
contains a bracket/punctuation special character. -/
def isLikelySongTitle (freq : String → Nat) (t : String) : Bool :=
  (decide (3 ≤ t.length) && !(isLikelyArtist freq t))
  || specialTitleChars.any (fun c => t.toList.contains c)

/-- One `\b` test of the regex engine: a word boundary sits between two
(optional, out-of-string = absent) characters iff exactly one side is a word
character. -/
def boundaryAt (x y : Option Char) : Bool :=
  (match x with | none => false | some c => isWordChar c)
    != (match y with | none => false | some c => isWordChar c)

/-- Whether the pattern `\b<a>\b` (with `a` escaped, hence literal) matches at
the current position of the scan, given the previous character. -/
def wbHit (a : List Char) (prev : Option Char) (s : List Char) : Bool :=
  !a.isEmpty && startsWithL a s
    && boundaryAt prev a.head?
    && boundaryAt a.getLast? ((List.drop a.length s).head?)

/-- Fuelled scan of `re.sub(r'\b' + re.escape(a) + r'\b', '', s)`: non
overlapping matches are deleted left to right; `fuel ≥ s.length` computes the
whole scan (each step consumes at least one character). -/
def subWBFuel (a : List Char) : Nat → Option Char → List Char → List Char
  | 0, _, s => s
  | f + 1, prev, s =>
    if wbHit a prev s then
      subWBFuel a f a.getLast? (List.drop a.length s)
    else
      match s with
      | [] => []
      | c :: r => c :: subWBFuel a f (some c) r

/-- `re.sub(r'\b' + re.escape(a) + r'\b', '', s)`. -/
def subWB (a s : List Char) : List Char :=
  subWBFuel a s.length none s

/-- Length of the leading `[-~\s]*` run. -/
def padRunLen (s : List Char) : Nat :=
  (s.takeWhile padChar).length

/-- Greedy backtracking of `[-~\s]*<a>[-~\s]*` at the current position: try
the longest pad prefix first, return the total matched length. -/
def tryPadK (a s : List Char) : Nat → Option Nat
  | 0 =>
    if startsWithL a s then
      some (a.length + padRunLen (List.drop a.length s))
    else none
  | k + 1 =>
    if startsWithL a (List.drop (k + 1) s) then
      some ((k + 1) + a.length + padRunLen (List.drop (k + 1 + a.length) s))
    else tryPadK a s k

/-- Whether `[-~\s]*<a>[-~\s]*` matches at the current position, and with what
total length. -/
def padHit (a s : List Char) : Option Nat :=
  if a.isEmpty then none else tryPadK a s (padRunLen s)

/-- Fuelled scan of `re.sub(r'[-~\s]*' + re.escape(a) + r'[-~\s]*', '', s)`. -/
def subPadFuel (a : List Char) : Nat → List Char → List Char
  | 0, s => s
  | f + 1, s =>
    match padHit a s with
    | some n => subPadFuel a f (List.drop n s)
    | none =>
      match s with
      | [] => []
      | c :: r => c :: subPadFuel a f r

/-- `re.sub(r'[-~\s]*' + re.escape(a) + r'[-~\s]*', '', s)`. -/
def subPad (a s : List Char) : List Char :=
  subPadFuel a s.length s

/-- Fuelled scan of `re.sub(r'[~\-_\s\.—–]+', ' ', s)`: every maximal
separator run becomes a single space. -/
def sepCollapseFuel : Nat → List Char → List Char
  | 0, s => s
  | _ + 1, [] => []
  | f + 1, c :: r =>
    if sepChar c then ' ' :: sepCollapseFuel f (r.dropWhile sepChar)
    else c :: sepCollapseFuel f r

/-- `re.sub(r'[~\-_\s\.—–]+', ' ', s)`. -/
def sepCollapse (s : List Char) : List Char :=
  sepCollapseFuel s.length s

/-- The per-token artist score of the ≥3-token branch:
`3*is_likely_artist + 2*[frequency > 1] + 1*[i == 0]`. -/
def artistScore (freq : String → Nat) (i : Nat) (p : String) : Nat :=
  (if isLikelyArtist freq p then 3 else 0)
    + (if freq p > 1 then 2 else 0)
    + (if i = 0 then 1 else 0)

/-- The `artist_scores` list of `(score, index)` pairs built by the
`for i, part in enumerate(parts)` loop (the third tuple component of the
source, the part itself, never participates in comparisons because the
indices are pairwise distinct). -/
def scoreList (freq : String → Nat) : Nat → List String → List (Nat × Nat)
  | _, [] => []
  | i, p :: r => (artistScore freq i p, i) :: scoreList freq (i + 1) r

/-- Strict descending-tuple comparison used by `artist_scores.sort(reverse=True)`. -/
def lexGTb (x b : Nat × Nat) : Bool :=
  decide (b.1 < x.1) || (decide (x.1 = b.1) && decide (b.2 < x.2))

/-- One comparison step of selecting the head of the reverse-sorted list. -/
def selStep (b y : Nat × Nat) : Nat × Nat :=
  if lexGTb y b then y else b

/-- `artist_scores.sort(reverse=True)` followed by taking `artist_scores[0]`:
since the index components are pairwise distinct, this is exactly the
lexicographic maximum of the `(score, index)` pairs. -/
def selectMax : List (Nat × Nat) → Nat × Nat
  | [] => (0, 0)
  | x :: r => r.foldl selStep x

/-- `best_artist_idx` of the ≥3-token branch. -/
def bestIdxOf (freq : String → Nat) (parts : List String) : Nat :=
  (selectMax (scoreList freq 0 parts)).2

/-- The `title_parts` loop: keep every token whose index differs from `b`. -/
def removeAtGo (b : Nat) : Nat → List String → List String
  | _, [] => []
  | i, p :: r =>
    if i = b then removeAtGo b (i + 1) r
    else p :: removeAtGo b (i + 1) r

/-- All tokens except the one at index `b`, in original order. -/
def removeAt (parts : List String) (b : Nat) : List String :=
  removeAtGo b 0 parts

/-- Title construction of the ≥3-token branch: join the remaining tokens with
spaces, delete whole-word occurrences of the artist, collapse separator runs,
and fall back to the first remaining token when the result is empty. -/
def titleOfRest (artist : String) (restParts : List String) : String :=
  let t0 := String.intercalate " " restParts
  let t1 := String.mk (stripList (subWB artist.toList t0.toList))
  let t2 := String.mk (stripList (sepCollapse t1.toList))
  if t2 = "" then
    (match restParts with
     | [] => t2
     | h :: _ => h)
  else t2

/-- The ≥3-token branch of `_parse_filename_intelligently`. -/
def parseMulti (freq : String → Nat) (parts : List String) : Option String × String :=
  let b := bestIdxOf freq parts
  let artist := parts.getD b ""
  (some artist, titleOfRest artist (removeAt parts b))

/-- `_parse_filename_intelligently` applied to an already-tokenized stem:
one token is a pure title, two tokens are scored both ways, three or more go
through the artist-score vote, no tokens fall through to `(None, filename)`. -/
def parseParts (freq : String → Nat) (orig : String) (parts : List String) :
    Option String × String :=
  match parts with
  | [] => (none, orig)
  | [p] => (none, p)
  | [p1, p2] =>
    let sAF := (if isLikelyArtist freq p1 then 2 else 0)
      + (if isLikelySongTitle freq p2 then 1 else 0)
    let sTF := (if isLikelyArtist freq p2 then 2 else 0)
      + (if isLikelySongTitle freq p1 then 1 else 0)
    if sTF < sAF then (some p1, p2)
    else if sAF < sTF then (some p2, p1)
    else (some p1, p2)
  | p1 :: p2 :: p3 :: rest => parseMulti freq (p1 :: p2 :: p3 :: rest)

/-- `_parse_filename_intelligently` on a filename stem. -/
def parseFilename (freq : String → Nat) (stem : String) : Option String × String :=
  parseParts freq stem (splitFilename stem)

/-- The empty corpus frequency index (no file scanned yet). -/
def zeroFreq : String → Nat := fun _ => 0

/-- The cleaning pipeline of `_clean_title` after the artist guard: the two
patterns (each followed by `strip`), then the trailing and leading separator
run removals (each followed by `strip`). -/
def cleanPipelineL (a t : List Char) : List Char :=
  stripList (dropLeadBy sepChar
    (stripList (dropTrailBy sepChar
      (stripList (subPad a
        (stripList (subWB a t)))))))

/-- `_clean_title`: return the title unchanged for a falsy artist or the
"Various Artists" sentinel, otherwise run the pipeline and restore the
original title when the result is empty. -/
def cleanTitle (title artist : String) : String :=
  if artist = "" ∨ artist = "Various Artists" then title
  else if String.mk (cleanPipelineL artist.toList title.toList) = "" then title
  else String.mk (cleanPipelineL artist.toList title.toList)

/-- The tag frames `extract_metadata` reads from an MP3 file. -/
structure AudioTags where
  tit2 : Option String
  tit1 : Option String
  tit3 : Option String
  tpe1 : Option String
  tpe2 : Option String
  talb : Option String

/-- The object returned by `mutagen.File` when it does not raise: whether the
file is an MP3 with tags, and the `info.length` attribute when present. -/
structure AudioFileData where
  isMp3 : Bool
  tags : Option AudioTags
  lengthInfo : Option Nat

/-- The `info` dictionary of `extract_metadata`.  `duration = none` models the
absence of the `"duration"` key (the error-fallback dictionary omits it). -/
structure Metadata where
  title : Option String
  artist : Option String
  album : Option String
  duration : Option Nat
  artist_source : Option String
deriving DecidableEq

/-- Python truthiness of an optional string: present and non-empty. -/
def strTruthy : Option String → Bool
  | none => false
  | some s => !(s == "")

/-- `split('/')[0]` (or `split(';')[0]`): the prefix before the first
occurrence of the delimiter. -/
def splitFirst (a : String) (d : Char) : String :=
  String.mk (a.toList.takeWhile (fun c => c != d))

/-- Title extraction from tags: `TIT2`, else `TIT1`, else `TIT3`, stripped. -/
def tagTitleOf (tags : AudioTags) : Option String :=
  match tags.tit2 with
  | some v => some (stripStr v)
  | none =>
    match tags.tit1 with
    | some v => some (stripStr v)
    | none =>
      match tags.tit3 with
      | some v => some (stripStr v)
      | none => none

/-- Artist extraction from tags (lines 225–236): a `TPE1` value is stripped
and truncated at the first `/` (else at the first `;`); a `TPE2` value is
only stripped.  Returns the artist and the provenance tag. -/
def tagArtistOf (tags : AudioTags) : Option String × Option String :=
  match tags.tpe1 with
  | some v =>
    (some (if (stripStr v).toList.contains '/' then stripStr (splitFirst (stripStr v) '/')
           else if (stripStr v).toList.contains ';' then stripStr (splitFirst (stripStr v) ';')
           else stripStr v),
     some "TPE1_tag")
  | none =>
    match tags.tpe2 with
    | some v => (some (stripStr v), some "TPE2_tag")
    | none => (none, none)

/-- `extract_metadata`: the success path reads tags and merges in the parsed
filename with the precedence rules of lines 246–271; the exception path
(lines 273–281) builds the error-fallback dictionary, which carries no
`"duration"` key. -/
def extractMetadata (res : Except Unit (Option AudioFileData)) (stem : String)
    (freq : String → Nat) : Metadata :=
  match res with
  | Except.error _ =>
    let fp := parseFilename freq stem
    { title := some (if fp.2 = "" then stem else fp.2)
      artist := some (match fp.1 with
        | some a => if a = "" then "Various Artists" else a
        | none => "Various Artists")
      album := none
      duration := none
      artist_source := some "error_fallback" }
  | Except.ok audioOpt =>
    let base : Metadata :=
      { title := none, artist := none, album := none,
        duration := some 0, artist_source := none }
    let info :=
      match audioOpt with
      | none => base
      | some audio =>
        let info1 :=
          if audio.isMp3 then
            match audio.tags with
            | some tags =>
              let ta := tagArtistOf tags
              { base with
                  title := tagTitleOf tags
                  artist := ta.1
                  artist_source := ta.2
                  album := tags.talb.map stripStr }
            | none => base
          else base
        match audio.lengthInfo with
        | some n => { info1 with duration := some n }
        | none => info1
    let fp := parseFilename freq stem
    let info :=
      if !strTruthy info.title && !(fp.2 == "") then
        { info with title := some fp.2, artist_source := some "filename_parse_title" }
      else info
    let info :=
      if (!strTruthy info.artist || info.artist == some "未知艺术家")
          && strTruthy fp.1 then
        { info with
            artist := fp.1
            artist_source :=
              if strTruthy info.artist_source then info.artist_source
              else some "filename_parse_artist" }
      else info
    let info :=
      if !strTruthy info.title then { info with title := some stem } else info
    let info :=
      if strTruthy info.artist && strTruthy info.title then
        { info with
            title := some (cleanTitle (info.title.getD "") (info.artist.getD "")) }
      else info
    let info :=
      if !strTruthy info.artist then
        { info with
            artist := some "Various Artists"
            artist_source :=
              if strTruthy info.artist_source then info.artist_source
              else some "default" }
      else info
    info

/-- The playlist entry fields relevant to the per-file step. -/
structure PlaylistEntry where
  name : String
  artist : String
  duration : Nat
deriving DecidableEq

/-- The per-file body of `process_directory` after metadata extraction: the
audio copy (line 396) happens before the playlist entry is built, and building
the entry reads `metadata["duration"]` (line 426), which raises `KeyError`
when the key is absent; that exception is caught by the per-file handler and
the file is skipped.  Result: (file was copied, appended entry if any). -/
def processFileStep (md : Metadata) (stem : String) : Bool × Option PlaylistEntry :=
  let title := match md.title with
    | some t => if t = "" then stem else t
    | none => stem
  let artist := match md.artist with
    | some a => if a = "" then "Various Artists" else a
    | none => "Various Artists"
  let copied := true
  match md.duration with
  | some d => (copied, some { name := title, artist := artist, duration := d })
  | none => (copied, none)

/-- One entry of the cover-search response list: song title, first singer
name, and the optional `albummid`. -/
structure Song where
  songname : String
  singer : String
  albummid : Option String
deriving DecidableEq

/-- The bidirectional substring match of the cover-search loop. -/
def coverMatch (title artist : String) (s : Song) : Bool :=
  (occursInStr title s.songname || occursInStr s.songname title)
    && (occursInStr artist s.singer || occursInStr s.singer artist)

/-- Python truthiness of the optional `albummid` string. -/
def albumTruthy : Option String → Bool
  | none => false
  | some m => !(m == "")

/-- The image URL built from an album identifier. -/
def coverUrl (m : String) : String :=
  "https://y.qq.com/music/photo_new/T002R300x300M000" ++ m ++ ".jpg"

/-- The no-match fallback of `search_cover` (lines 337-339): the URL from the
first listed song's `albummid` when that value is truthy, else `None`. -/
def firstAlbumURL (songs : List Song) : Option String :=
  match songs with
  | [] => none
  | s0 :: _ =>
    match s0.albummid with
    | some m => if m = "" then none else some (coverUrl m)
    | none => none

/-- `search_cover` on a decoded response (`none` models any request failure,
non-200 status, or a response without a song list): return the URL of the
first matching song that has a truthy `albummid`; otherwise fall back to the
first listed song's `albummid`; otherwise `None`. -/
def searchCover (title artist : String) (resp : Option (List Song)) : Option String :=
  match resp with
  | none => none
  | some songs =>
    match songs.find? (fun s => coverMatch title artist s && albumTruthy s.albummid) with
    | some s =>
      match s.albummid with
      | some m => some (coverUrl m)
      | none => none
    | none => firstAlbumURL songs

/-- The cover value stored in the playlist entry (lines 415–417): the search
result, or the fixed default cover path when the search returned `None`. -/
def coverValue (title artist : String) (resp : Option (List Song)) : String :=
  (searchCover title artist resp).getD "/music/default_cover.jpg"

/-- The cover value produced when the matching loop finds nothing: the first
listed song's album URL when its identifier is truthy, else the default. -/
def firstAlbumFallback (songs : List Song) : String :=
  (firstAlbumURL songs).getD "/music/default_cover.jpg"

/-! ## Generic list lemmas -/

/-- The head surviving a `dropWhile` does not satisfy the predicate. -/
lemma dropWhile_head_false (p : Char → Bool) :
    ∀ (s : List Char) (c : Char), (s.dropWhile p).head? = some c → p c = false := by
  intro s
  induction s with
  | nil => intro c h; simp [List.dropWhile] at h
  | cons x r ih =>
    intro c h
    cases hx : p x with
    | false =>
      rw [List.dropWhile_cons_of_neg (by simp [hx])] at h
      simp at h
      rw [← h]
      exact hx
    | true =>
      rw [List.dropWhile_cons_of_pos hx] at h
      exact ih c h

/-- `dropWhile` is the identity when the head does not satisfy the predicate. -/
lemma dropWhile_eq_self_of_head (p : Char → Bool) (s : List Char)
    (h : ∀ c, s.head? = some c → p c = false) : s.dropWhile p = s := by
  cases s with
  | nil => rfl
  | cons x r => exact List.dropWhile_cons_of_neg (by simp [h x rfl])

lemma lastOpt_cons (x : Char) (r : List Char) (hr : r ≠ []) :
    lastOpt (x :: r) = lastOpt r := by
  unfold lastOpt
  rw [List.reverse_cons]
  cases hrev : r.reverse with
  | nil => exact absurd (by simpa using congrArg List.reverse hrev) hr
  | cons y t => simp [hrev]

lemma lastOpt_ne_none {s : List Char} {c : Char} (h : lastOpt s = some c) : s ≠ [] := by
  intro hs
  rw [hs] at h
  simp [lastOpt] at h

/-- A `dropWhile` from the front preserves the last element when anything
survives. -/
lemma dropWhile_lastOpt (p : Char → Bool) :
    ∀ (s : List Char) (c : Char), lastOpt (s.dropWhile p) = some c → lastOpt s = some c := by
  intro s
  induction s with
  | nil => intro c h; simp [List.dropWhile, lastOpt] at h
  | cons x r ih =>
    intro c h
    cases hx : p x with
    | false =>
      rw [List.dropWhile_cons_of_neg (by simp [hx])] at h
      exact h
    | true =>
      rw [List.dropWhile_cons_of_pos hx] at h
      have hr := ih c h
      rw [lastOpt_cons x r (lastOpt_ne_none hr)]
      exact hr

lemma dropTrailBy_last_false (p : Char → Bool) (s : List Char) (c : Char)
    (h : lastOpt (dropTrailBy p s) = some c) : p c = false := by
  unfold lastOpt dropTrailBy at h
  rw [List.reverse_reverse] at h
  exact dropWhile_head_false p s.reverse c h

lemma dropTrailBy_eq_self (p : Char → Bool) (s : List Char)
    (h : ∀ c, lastOpt s = some c → p c = false) : dropTrailBy p s = s := by
  unfold dropTrailBy
  rw [dropWhile_eq_self_of_head p s.reverse (fun c hc => h c hc)]
  exact List.reverse_reverse s

lemma dropLeadBy_head_false (p : Char → Bool) (s : List Char) (c : Char)
    (h : (dropLeadBy p s).head? = some c) : p c = false :=
  dropWhile_head_false p s c h

lemma dropLeadBy_eq_self (p : Char → Bool) (s : List Char)
    (h : ∀ c, s.head? = some c → p c = false) : dropLeadBy p s = s :=
  dropWhile_eq_self_of_head p s h

lemma dropLeadBy_lastOpt (p : Char → Bool) (s : List Char) (c : Char)
    (h : lastOpt (dropLeadBy p s) = some c) : lastOpt s = some c :=
  dropWhile_lastOpt p s c h

/-- Whitespace is inside the separator class. -/
lemma sepChar_of_ws {c : Char} (h : c.isWhitespace = true) : sepChar c = true := by
  simp [sepChar, h]

lemma ws_false_of_sep_false {c : Char} (h : sepChar c = false) : c.isWhitespace = false := by
  cases hw : c.isWhitespace with
  | false => rfl
  | true => rw [sepChar_of_ws hw] at h; cases h

/-- `strip` is the identity on a string whose ends are not separators. -/
lemma stripList_eq_self (s : List Char)
    (hh : ∀ c, s.head? = some c → sepChar c = false)
    (hl : ∀ c, lastOpt s = some c → sepChar c = false) : stripList s = s := by
  unfold stripList
  rw [dropLeadBy_eq_self _ _ (fun c hc => ws_false_of_sep_false (hh c hc))]
  exact dropTrailBy_eq_self _ _ (fun c hc => ws_false_of_sep_false (hl c hc))

/-- An element at a valid index is a member. -/
lemma getD_mem_of_lt : ∀ (l : List String) (n : Nat), n < l.length → l.getD n "" ∈ l := by
  intro l
  induction l with
  | nil => intro n h; simp at h
  | cons x r ih =>
    intro n h
    cases n with
    | zero => simp
    | succ m =>
      simp only [List.getD_cons_succ]
      exact List.mem_cons_of_mem x (ih m (by simpa using h))

/-! ## Substring and substitution lemmas -/

lemma occursIn_cons (a : List Char) (c : Char) (r : List Char) :
    occursIn a (c :: r) = (startsWithL a (c :: r) || occursIn a r) := rfl

lemma not_startsWithL_of_not_occursIn {a s : List Char}
    (h : occursIn a s = false) : startsWithL a s = false := by
  cases s with
  | nil => simpa [occursIn] using h
  | cons c r =>
    rw [occursIn_cons, Bool.or_eq_false_iff] at h
    exact h.1

lemma not_occursIn_tail {a : List Char} {c : Char} {r : List Char}
    (h : occursIn a (c :: r) = false) : occursIn a r = false := by
  rw [occursIn_cons, Bool.or_eq_false_iff] at h
  exact h.2

/-- A prefix of any suffix is a substring. -/
lemma occursIn_of_startsWithL_drop (a : List Char) :
    ∀ (k : Nat) (s : List Char), startsWithL a (List.drop k s) = true → occursIn a s = true := by
  intro k
  induction k with
  | zero =>
    intro s h
    cases s with
    | nil => simpa [occursIn] using h
    | cons c r => simp only [List.drop_zero] at h; simp [occursIn_cons, h]
  | succ k ih =>
    intro s h
    cases s with
    | nil => simpa [occursIn] using h
    | cons c r =>
      have hr := ih r (by simpa using h)
      simp [occursIn_cons, hr]

/-- With no occurrence of the pattern, the word-boundary substitution is the
identity. -/
lemma subWBFuel_id (a : List Char) :
    ∀ (f : Nat) (s : List Char) (prev : Option Char),
      occursIn a s = false → subWBFuel a f prev s = s := by
  intro f
  induction f with
  | zero => intro s prev _; rfl
  | succ f ih =>
    intro s prev h
    have hsw := not_startsWithL_of_not_occursIn h
    have hb : wbHit a prev s = false := by simp [wbHit, hsw]
    cases s with
    | nil => simp [subWBFuel, hb]
    | cons c r =>
      have hr := not_occursIn_tail h
      simp [subWBFuel, hb, ih r (some c) hr]

lemma subWB_id (a s : List Char) (h : occursIn a s = false) : subWB a s = s :=
  subWBFuel_id a s.length s none h

lemma tryPadK_none {a s : List Char} (h : occursIn a s = false) :
    ∀ k, tryPadK a s k = none := by
  intro k
  induction k with
  | zero =>
    have hs : startsWithL a s = false := by
      cases hx : startsWithL a s with
      | false => rfl
      | true =>
        have := occursIn_of_startsWithL_drop a 0 s (by simpa using hx)
        rw [this] at h
        cases h
    simp [tryPadK, hs]
  | succ k ih =>
    have hs : startsWithL a (List.drop (k + 1) s) = false := by
      cases hx : startsWithL a (List.drop (k + 1) s) with
      | false => rfl
      | true =>
        have := occursIn_of_startsWithL_drop a (k + 1) s hx
        rw [this] at h
        cases h
    simp [tryPadK, hs, ih]

lemma padHit_none {a s : List Char} (h : occursIn a s = false) : padHit a s = none := by
  unfold padHit
  cases he : a.isEmpty with
  | true => simp
  | false => simp [tryPadK_none h]

/-- With no occurrence of the pattern, the padded substitution is the
identity. -/
lemma subPadFuel_id (a : List Char) :
    ∀ (f : Nat) (s : List Char), occursIn a s = false → subPadFuel a f s = s := by
  intro f
  induction f with
  | zero => intro s _; rfl
  | succ f ih =>
    intro s h
    have hp := padHit_none h
    cases s with
    | nil => simp [subPadFuel, hp]
    | cons c r =>
      have hr := not_occursIn_tail h
      simp [subPadFuel, hp, ih r hr]

lemma subPad_id (a s : List Char) (h : occursIn a s = false) : subPad a s = s :=
  subPadFuel_id a s.length s h

/-! ## Lemmas on the artist-score selection -/

/-- Weak lexicographic order on `(score, index)` pairs. -/
def lexLE (x b : Nat × Nat) : Prop :=
  x.1 < b.1 ∨ (x.1 = b.1 ∧ x.2 ≤ b.2)

lemma lexLE_refl (x : Nat × Nat) : lexLE x x :=
  Or.inr ⟨rfl, Nat.le_refl _⟩

lemma lexLE_trans {x y z : Nat × Nat} (h1 : lexLE x y) (h2 : lexLE y z) : lexLE x z := by
  unfold lexLE at *
  omega

lemma lexLE_of_lexGTb_false {x b : Nat × Nat} (h : lexGTb x b = false) : lexLE x b := by
  simp [lexGTb] at h
  unfold lexLE
  omega

lemma lexLE_of_lexGTb_true {x b : Nat × Nat} (h : lexGTb x b = true) : lexLE b x := by
  simp [lexGTb] at h
  unfold lexLE
  omega

lemma foldl_selStep_mem :
    ∀ (r : List (Nat × Nat)) (x : Nat × Nat),
      r.foldl selStep x = x ∨ r.foldl selStep x ∈ r := by
  intro r
  induction r with
  | nil => intro x; exact Or.inl rfl
  | cons y r ih =>
    intro x
    rw [List.foldl_cons]
    rcases ih (selStep x y) with h | h
    · rw [h]
      unfold selStep
      cases hg : lexGTb y x with
      | false => simp
      | true => simp
    · exact Or.inr (List.mem_cons_of_mem y h)

lemma foldl_selStep_ub :
    ∀ (r : List (Nat × Nat)) (x y : Nat × Nat),
      (y = x ∨ y ∈ r) → lexLE y (r.foldl selStep x) := by
  intro r
  induction r with
  | nil =>
    intro x y h
    rcases h with rfl | h
    · exact lexLE_refl y
    · simp at h
  | cons z r ih =>
    intro x y h
    rw [List.foldl_cons]
    have hx_step : lexLE x (selStep x z) := by
      unfold selStep
      cases hg : lexGTb z x with
      | false => simp [lexLE_refl]
      | true => simpa using lexLE_of_lexGTb_true hg
    have hz_step : lexLE z (selStep x z) := by
      unfold selStep
      cases hg : lexGTb z x with
      | false => simpa using lexLE_of_lexGTb_false hg
      | true => simp [lexLE_refl]
    rcases h with rfl | hm
    · exact lexLE_trans hx_step (ih _ _ (Or.inl rfl))
    · rcases List.mem_cons.mp hm with rfl | hm2
      · exact lexLE_trans hz_step (ih _ _ (Or.inl rfl))
      · exact ih _ y (Or.inr hm2)

lemma selectMax_mem : ∀ (l : List (Nat × Nat)), l ≠ [] → selectMax l ∈ l := by
  intro l h
  cases l with
  | nil => exact absurd rfl h
  | cons x r =>
    rcases foldl_selStep_mem r x with h1 | h1
    · rw [selectMax, h1]; exact List.mem_cons_self x r
    · exact List.mem_cons_of_mem x h1

lemma selectMax_ub : ∀ (l : List (Nat × Nat)) (y : Nat × Nat), y ∈ l → lexLE y (selectMax l) := by
  intro l y h
  cases l with
  | nil => simp at h
  | cons x r =>
    rcases List.mem_cons.mp h with rfl | hm
    · exact foldl_selStep_ub r y y (Or.inl rfl)
    · exact foldl_selStep_ub r x y (Or.inr hm)

lemma scoreList_mem_of_lt (freq : String → Nat) :
    ∀ (parts : List String) (i0 j : Nat), j < parts.length →
      (artistScore freq (i0 + j) (parts.getD j ""), i0 + j) ∈ scoreList freq i0 parts := by
  intro parts
  induction parts with
  | nil => intro i0 j h; simp at h
  | cons p r ih =>
    intro i0 j h
    cases j with
    | zero => simp [scoreList]
    | succ m =>
      have := ih (i0 + 1) m (by simpa using h)
      rw [scoreList]
      refine List.mem_cons_of_mem _ ?_
      have harith : i0 + 1 + m = i0 + (m + 1) := by omega
      rw [harith] at this
      simpa using this

lemma scoreList_mem_inv (freq : String → Nat) :
    ∀ (parts : List String) (i0 : Nat) (x : Nat × Nat), x ∈ scoreList freq i0 parts →
      ∃ j, j < parts.length ∧ x = (artistScore freq (i0 + j) (parts.getD j ""), i0 + j) := by
  intro parts
  induction parts with
  | nil => intro i0 x h; simp [scoreList] at h
  | cons p r ih =>
    intro i0 x h
    rw [scoreList] at h
    rcases List.mem_cons.mp h with rfl | hm
    · exact ⟨0, by simp, by simp⟩
    · obtain ⟨j, hj, hx⟩ := ih (i0 + 1) x hm
      refine ⟨j + 1, by simpa using hj, ?_⟩
      have harith : i0 + 1 + j = i0 + (j + 1) := by omega
      rw [hx, harith]
      simp

/-- Characterization of `best_artist_idx` on a non-empty token list: it is a
valid index, its score is maximal, and among the indices attaining the maximal
score it is the largest. -/
lemma bestIdxOf_spec (freq : String → Nat) (parts : List String) (hne : parts ≠ []) :
    bestIdxOf freq parts < parts.length ∧
    (∀ j, j < parts.length →
      artistScore freq j (parts.getD j "") ≤
        artistScore freq (bestIdxOf freq parts) (parts.getD (bestIdxOf freq parts) "")) ∧
    (∀ j, j < parts.length →
      artistScore freq j (parts.getD j "") =
        artistScore freq (bestIdxOf freq parts) (parts.getD (bestIdxOf freq parts) "") →
      j ≤ bestIdxOf freq parts) := by
  have hnil : scoreList freq 0 parts ≠ [] := by
    cases parts with
    | nil => exact absurd rfl hne
    | cons p r => simp [scoreList]
  have hmem := selectMax_mem (scoreList freq 0 parts) hnil
  obtain ⟨b, hb, hx⟩ := scoreList_mem_inv freq parts 0 _ hmem
  simp only [Nat.zero_add] at hx
  have hb2 : bestIdxOf freq parts = b := by
    unfold bestIdxOf
    rw [hx]
  have hscore : (selectMax (scoreList freq 0 parts)).1 =
      artistScore freq b (parts.getD b "") := by
    rw [hx]
  refine ⟨by rw [hb2]; exact hb, ?_, ?_⟩
  · intro j hj
    have hj_mem := scoreList_mem_of_lt freq parts 0 j hj
    simp only [Nat.zero_add] at hj_mem
    have := selectMax_ub _ _ hj_mem
    unfold lexLE at this
    rw [hx] at this
    simp only at this
    rw [hb2]
    omega
  · intro j hj heq
    have hj_mem := scoreList_mem_of_lt freq parts 0 j hj
    simp only [Nat.zero_add] at hj_mem
    have := selectMax_ub _ _ hj_mem
    unfold lexLE at this
    rw [hx] at this
    simp only at this
    rw [hb2] at heq ⊢
    omega

/-! ## Structure of the cleaning pipeline -/

/-- After stripping a trailing separator run, a whitespace strip only acts on
the front. -/
lemma stripList_dropTrailSep (y : List Char) :
    stripList (dropTrailBy sepChar y) =
      dropLeadBy Char.isWhitespace (dropTrailBy sepChar y) := by
  unfold stripList
  apply dropTrailBy_eq_self
  intro c hc
  have h1 := dropLeadBy_lastOpt Char.isWhitespace (dropTrailBy sepChar y) c hc
  exact ws_false_of_sep_false (dropTrailBy_last_false sepChar y c h1)

/-- The last character surviving the third pipeline stage is not a
separator. -/
lemma stage3_last (y : List Char) (c : Char)
    (h : lastOpt (dropLeadBy Char.isWhitespace (dropTrailBy sepChar y)) = some c) :
    sepChar c = false :=
  dropTrailBy_last_false sepChar y c (dropLeadBy_lastOpt Char.isWhitespace _ c h)

/-- After removing the leading separator run from a string whose last
character is not a separator, the final whitespace strip is the identity. -/
lemma stripList_dropLeadSep (z : List Char)
    (hz : ∀ c, lastOpt z = some c → sepChar c = false) :
    stripList (dropLeadBy sepChar z) = dropLeadBy sepChar z := by
  unfold stripList
  rw [dropLeadBy_eq_self Char.isWhitespace (dropLeadBy sepChar z)
    (fun c hc => ws_false_of_sep_false (dropLeadBy_head_false sepChar z c hc))]
  apply dropTrailBy_eq_self
  intro c hc
  exact ws_false_of_sep_false (hz c (dropLeadBy_lastOpt sepChar z c hc))

/-- The cleaned title of `_clean_title` never starts or ends with a separator
character. -/
lemma cleanPipelineL_ends (a t : List Char) :
    (∀ c, (cleanPipelineL a t).head? = some c → sepChar c = false) ∧
    (∀ c, lastOpt (cleanPipelineL a t) = some c → sepChar c = false) := by
  unfold cleanPipelineL
  rw [stripList_dropTrailSep]
  rw [stripList_dropLeadSep _ (fun c hc => stage3_last _ c hc)]
  constructor
  · intro c hc
    exact dropLeadBy_head_false sepChar _ c hc
  · intro c hc
    exact stage3_last _ c (dropLeadBy_lastOpt sepChar _ c hc)

/-- A string whose ends are not separators and which does not contain the
artist is a fixed point of the cleaning pipeline. -/
lemma cleanPipelineL_fix (a s : List Char) (hocc : occursIn a s = false)
    (hh : ∀ c, s.head? = some c → sepChar c = false)
    (hl : ∀ c, lastOpt s = some c → sepChar c = false) :
    cleanPipelineL a s = s := by
  have hstrip : stripList s = s := stripList_eq_self s hh hl
  unfold cleanPipelineL
  rw [subWB_id a s hocc, hstrip, subPad_id a s hocc, hstrip,
    dropTrailBy_eq_self sepChar s hl, hstrip,
    dropLeadBy_eq_self sepChar s hh, hstrip]

/-! ## Classifier helper lemmas -/

lemma isLikelyArtist_of_short (freq : String → Nat) (t : String)
    (h : (decide (2 ≤ t.length) && decide (t.length ≤ 4)
      && !(t.toList.any (fun c => c.isDigit))) = true) :
    isLikelyArtist freq t = true := by
  unfold isLikelyArtist
  rw [h]
  simp

lemma isLikelyArtist_of_common (freq : String → Nat) (t : String)
    (h : commonArtists.contains t = true) :
    isLikelyArtist freq t = true := by
  unfold isLikelyArtist
  rw [h]
  simp

lemma isLikelySongTitle_false_of_artist (freq : String → Nat) (t : String)
    (hart : isLikelyArtist freq t = true)
    (hsp : specialTitleChars.any (fun c => t.toList.contains c) = false) :
    isLikelySongTitle freq t = false := by
  unfold isLikelySongTitle
  rw [hart, hsp]
  simp

/-! ## C1 — two-token ordering of "告白气球 - 周杰伦" -/

/-- C1, counterexample: the parser classifies the stem "告白气球 - 周杰伦" as
artist "告白气球" and title "周杰伦" (with the empty corpus index), not as
artist "周杰伦", title "告白气球" as the claim requires. -/
theorem c1_counterexample :
    parseFilename zeroFreq "告白气球 - 周杰伦" = (some "告白气球", "周杰伦") ∧
    parseFilename zeroFreq "告白气球 - 周杰伦" ≠ (some "周杰伦", "告白气球") := by
  decide

/-- C1, amended: for every corpus frequency index, the parser returns
artist "告白气球", title "周杰伦" for the stem "告白气球 - 周杰伦": the token
"告白气球" is 4 characters with no digit, hence artist-like by the length
heuristic, both orderings score 2, and the tie defaults to the first token.
Classification of this stem is therefore not order-independent. -/
theorem c1_order_dependent (freq : String → Nat) :
    parseFilename freq "告白气球 - 周杰伦" = (some "告白气球", "周杰伦") := by
  have hs : splitFilename "告白气球 - 周杰伦" = ["告白气球", "周杰伦"] := by decide
  have ha1 : isLikelyArtist freq "告白气球" = true :=
    isLikelyArtist_of_short freq _ (by decide)
  have ha2 : isLikelyArtist freq "周杰伦" = true :=
    isLikelyArtist_of_common freq _ (by decide)
  have ht1 : isLikelySongTitle freq "告白气球" = false :=
    isLikelySongTitle_false_of_artist freq _ ha1 (by decide)
  have ht2 : isLikelySongTitle freq "周杰伦" = false :=
    isLikelySongTitle_false_of_artist freq _ ha2 (by decide)
  unfold parseFilename
  rw [hs]
  simp only [parseParts, ha1, ha2, ht1, ht2]
  norm_num

/-! ## C2 — tie-breaking of the ≥3-token artist vote -/

/-- C2, counterexample: in "abcde1-ab-cd" the tokens "ab" (index 1) and "cd"
(index 2) tie for the maximal artist score 3, and the parser selects "cd",
the higher index, not the lower one claimed. -/
theorem c2_counterexample :
    splitFilename "abcde1-ab-cd" = ["abcde1", "ab", "cd"] ∧
    scoreList zeroFreq 0 ["abcde1", "ab", "cd"] = [(1, 0), (3, 1), (3, 2)] ∧
    (parseFilename zeroFreq "abcde1-ab-cd").1 = some "cd" ∧
    (parseFilename zeroFreq "abcde1-ab-cd").1 ≠ some "ab" := by
  decide

/-- C2, amended: for every token sequence of length ≥ 3 the parser selects as
artist a token of maximal score, and among tied maxima the one with the
HIGHEST index (`artist_scores.sort(reverse=True)` sorts the `(score, index)`
tuples in descending lexicographic order, so equal scores are ordered by
descending index). -/
theorem c2_tie_break (freq : String → Nat) (orig : String) (parts : List String)
    (h3 : 3 ≤ parts.length) :
    ∃ b, b < parts.length ∧
      (parseParts freq orig parts).1 = some (parts.getD b "") ∧
      (∀ j, j < parts.length →
        artistScore freq j (parts.getD j "") ≤ artistScore freq b (parts.getD b "")) ∧
      (∀ j, j < parts.length →
        artistScore freq j (parts.getD j "") = artistScore freq b (parts.getD b "") →
        j ≤ b) := by
  rcases parts with _ | ⟨p1, _ | ⟨p2, _ | ⟨p3, rest⟩⟩⟩
  · simp at h3
  · simp at h3
  · simp at h3
  · obtain ⟨hlt, hub, htie⟩ := bestIdxOf_spec freq (p1 :: p2 :: p3 :: rest) (by simp)
    exact ⟨bestIdxOf freq (p1 :: p2 :: p3 :: rest), hlt, rfl, hub, htie⟩

/-- C2 witness: the amended tie-break at the concrete tied input. -/
theorem c2_tie_break_witness :
    ∃ b, b < (["abcde1", "ab", "cd"] : List String).length ∧
      (parseParts zeroFreq "abcde1-ab-cd" ["abcde1", "ab", "cd"]).1 =
        some ((["abcde1", "ab", "cd"] : List String).getD b "") ∧
      (∀ j, j < (["abcde1", "ab", "cd"] : List String).length →
        artistScore zeroFreq j ((["abcde1", "ab", "cd"] : List String).getD j "") ≤
          artistScore zeroFreq b ((["abcde1", "ab", "cd"] : List String).getD b "")) ∧
      (∀ j, j < (["abcde1", "ab", "cd"] : List String).length →
        artistScore zeroFreq j ((["abcde1", "ab", "cd"] : List String).getD j "") =
          artistScore zeroFreq b ((["abcde1", "ab", "cd"] : List String).getD b "") →
        j ≤ b) :=
  c2_tie_break zeroFreq "abcde1-ab-cd" ["abcde1", "ab", "cd"] (by decide)

/-! ## C3 — error-fallback metadata and the per-file step -/

/-- C3, failing behaviour: when metadata extraction raises, the resolver does
fall back to filename parsing with `artist_source = "error_fallback"`, but the
fallback dictionary carries no `"duration"` key, so the per-file step reaches
`metadata["duration"]` after copying the file, raises `KeyError`, and appends
no playlist entry for the file. -/
theorem c3_error_fallback_bug :
    (extractMetadata (Except.error ()) "晴天 - 周杰伦" zeroFreq).artist_source =
      some "error_fallback" ∧
    (extractMetadata (Except.error ()) "晴天 - 周杰伦" zeroFreq).duration = none ∧
    processFileStep (extractMetadata (Except.error ()) "晴天 - 周杰伦" zeroFreq)
      "晴天 - 周杰伦" = (true, none) := by
  decide

/-! ## C5 — two-token scoring -/

/-- C5: on a two-token sequence the parser computes
`score_ab = 2*is_likely_artist(a) + 1*is_likely_title(b)` and
`score_ba = 2*is_likely_artist(b) + 1*is_likely_title(a)`, returns
`(artist=a, title=b)` when `score_ab > score_ba`, `(artist=b, title=a)` when
`score_ba > score_ab`, and `(artist=a, title=b)` on a tie. -/
theorem c5_two_token_scoring (freq : String → Nat) (orig a b : String) :
    parseParts freq orig [a, b] =
      (if 2 * (isLikelyArtist freq b).toNat + (isLikelySongTitle freq a).toNat
            < 2 * (isLikelyArtist freq a).toNat + (isLikelySongTitle freq b).toNat
       then (some a, b)
       else if 2 * (isLikelyArtist freq a).toNat + (isLikelySongTitle freq b).toNat
            < 2 * (isLikelyArtist freq b).toNat + (isLikelySongTitle freq a).toNat
       then (some b, a)
       else (some a, b)) := by
  simp only [parseParts]
  cases h1 : isLikelyArtist freq a <;> cases h2 : isLikelyArtist freq b <;>
    cases h3 : isLikelySongTitle freq a <;> cases h4 : isLikelySongTitle freq b <;>
      norm_num

/-! ## C6 — at most one token -/

/-- C6: a stem with exactly one token yields that token as the title and no
artist; a stem with no tokens falls through to `(None, filename)` without
failing. -/
theorem c6_few_tokens (freq : String → Nat) (stem : String) :
    (splitFilename stem = [] → parseFilename freq stem = (none, stem)) ∧
    (∀ t, splitFilename stem = [t] → parseFilename freq stem = (none, t)) := by
  constructor
  · intro h
    unfold parseFilename
    rw [h]
    rfl
  · intro t h
    unfold parseFilename
    rw [h]
    rfl

/-- C6 witness: an all-separator stem and a single-token stem. -/
theorem c6_few_tokens_witness :
    parseFilename zeroFreq "~.~" = (none, "~.~") ∧
    parseFilename zeroFreq "hello" = (none, "hello") :=
  ⟨(c6_few_tokens zeroFreq "~.~").1 (by decide),
   (c6_few_tokens zeroFreq "hello").2 "hello" (by decide)⟩

/-! ## C7 — title-cleaner guards -/

/-- C7: the cleaner returns the title unchanged for an absent (empty) artist
or the "Various Artists" sentinel, and never returns an empty string for a
non-empty input title (an empty pipeline result restores the original
title). -/
theorem c7_cleaner_guards (title artist : String) :
    (artist = "" → cleanTitle title artist = title) ∧
    (artist = "Various Artists" → cleanTitle title artist = title) ∧
    (title ≠ "" → cleanTitle title artist ≠ "") := by
  refine ⟨fun h => ?_, fun h => ?_, fun h => ?_⟩
  · unfold cleanTitle
    rw [if_pos (Or.inl h)]
  · unfold cleanTitle
    rw [if_pos (Or.inr h)]
  · unfold cleanTitle
    by_cases hva : artist = "" ∨ artist = "Various Artists"
    · rw [if_pos hva]
      exact h
    · rw [if_neg hva]
      by_cases hc : String.mk (cleanPipelineL artist.toList title.toList) = ""
      · rw [if_pos hc]
        exact h
      · rw [if_neg hc]
        exact hc

/-- C7 witness: the three guards at concrete inputs. -/
theorem c7_cleaner_guards_witness :
    cleanTitle "abc" "" = "abc" ∧
    cleanTitle "abc" "Various Artists" = "abc" ∧
    cleanTitle "abc" "b" ≠ "" :=
  ⟨(c7_cleaner_guards "abc" "").1 rfl,
   (c7_cleaner_guards "abc" "Various Artists").2.1 rfl,
   (c7_cleaner_guards "abc" "b").2.2 (by decide)⟩

/-! ## C4 — idempotence of the title cleaner -/

set_option maxHeartbeats 2000000 in
/-- C4, counterexample: removing the artist "ab" (with separator padding)
from "aabb cd" splices the remaining characters into a fresh occurrence
"ab cd", which a second cleaning pass removes, so
`clean(clean("aabb cd", "ab"), "ab") = "cd" ≠ "ab cd" = clean("aabb cd", "ab")`. -/
theorem c4_counterexample :
    cleanTitle (cleanTitle "aabb cd" "ab") "ab" ≠ cleanTitle "aabb cd" "ab" := by
  decide

/-- C4, amended: the cleaner is idempotent whenever the artist is absent, is
the "Various Artists" sentinel, or does not occur as a substring of the
cleaned title (the counterexample arises exactly when deletion splices a new
occurrence of the artist into the cleaned title). -/
theorem c4_idempotent_cond (title artist : String)
    (h : artist = "" ∨ artist = "Various Artists" ∨
         occursIn artist.toList (cleanTitle title artist).toList = false) :
    cleanTitle (cleanTitle title artist) artist = cleanTitle title artist := by
  by_cases htriv : artist = "" ∨ artist = "Various Artists"
  · have he : ∀ x, cleanTitle x artist = x := by
      intro x
      unfold cleanTitle
      rw [if_pos htriv]
    rw [he, he]
  · have hocc : occursIn artist.toList (cleanTitle title artist).toList = false := by
      rcases h with h1 | h2 | h3
      · exact absurd (Or.inl h1) htriv
      · exact absurd (Or.inr h2) htriv
      · exact h3
    set L := cleanPipelineL artist.toList title.toList with hL
    clear_value L
    by_cases hc : String.mk L = ""
    · have h1 : cleanTitle title artist = title := by
        unfold cleanTitle
        rw [if_neg htriv, ← hL, if_pos hc]
      rw [h1]
      exact h1
    · have h1 : cleanTitle title artist = String.mk L := by
        unfold cleanTitle
        rw [if_neg htriv, ← hL, if_neg hc]
      have hocc2 : occursIn artist.toList L = false := by
        rw [h1] at hocc
        exact hocc
      have hends := cleanPipelineL_ends artist.toList title.toList
      rw [← hL] at hends
      have hfix := cleanPipelineL_fix artist.toList L hocc2 hends.1 hends.2
      rw [h1]
      unfold cleanTitle
      rw [if_neg htriv]
      have htl : (String.mk L).toList = L := rfl
      rw [htl, hfix, if_neg hc]

set_option maxHeartbeats 2000000 in
/-- C4 witness: idempotence through the amended hypothesis at a concrete
input whose cleaned title does not contain the artist. -/
theorem c4_idempotent_cond_witness :
    cleanTitle (cleanTitle "hello world" "zz") "zz" = cleanTitle "hello world" "zz" :=
  c4_idempotent_cond "hello world" "zz" (Or.inr (Or.inr (by decide)))

/-! ## C8 — delimiter truncation of tag artists -/

set_option maxHeartbeats 2000000 in
/-- C8, counterexample: a band/ensemble (`TPE2`) artist containing the `/`
delimiter is stored untruncated, contradicting the claim that truncation
applies regardless of the originating frame. -/
theorem c8_counterexample :
    (extractMetadata
      (Except.ok (some ⟨true, some ⟨some "Song", none, none, none, some "A/B", none⟩, some 200⟩))
      "stem" zeroFreq).artist = some "A/B" ∧
    ("A/B".toList.contains '/' = true) ∧
    (extractMetadata
      (Except.ok (some ⟨true, some ⟨some "Song", none, none, none, some "A/B", none⟩, some 200⟩))
      "stem" zeroFreq).artist ≠ some "A" := by
  decide

/-- C8, amended: only the lead-artist (`TPE1`) frame is truncated at a `/`
delimiter (first segment, stripped); a band/ensemble (`TPE2`) value is stored
stripped but untruncated even when it contains a delimiter. -/
theorem c8_tpe_branches (tags : AudioTags) :
    (∀ s, tags.tpe1 = none → tags.tpe2 = some s →
      (tagArtistOf tags).1 = some (stripStr s)) ∧
    (∀ s, tags.tpe1 = some s → (stripStr s).toList.contains '/' = true →
      (tagArtistOf tags).1 = some (stripStr (splitFirst (stripStr s) '/'))) ∧
    (∀ s, tags.tpe1 = some s → (stripStr s).toList.contains '/' = false →
      (stripStr s).toList.contains ';' = true →
      (tagArtistOf tags).1 = some (stripStr (splitFirst (stripStr s) ';'))) := by
  refine ⟨?_, ?_, ?_⟩
  · intro s h1 h2
    unfold tagArtistOf
    rw [h1, h2]
  · intro s h1 h2
    unfold tagArtistOf
    rw [h1]
    show some (if (stripStr s).toList.contains '/' = true
        then stripStr (splitFirst (stripStr s) '/')
        else if (stripStr s).toList.contains ';' = true
        then stripStr (splitFirst (stripStr s) ';')
        else stripStr s) = some (stripStr (splitFirst (stripStr s) '/'))
    rw [if_pos h2]
  · intro s h1 h2 h3
    unfold tagArtistOf
    rw [h1]
    show some (if (stripStr s).toList.contains '/' = true
        then stripStr (splitFirst (stripStr s) '/')
        else if (stripStr s).toList.contains ';' = true
        then stripStr (splitFirst (stripStr s) ';')
        else stripStr s) = some (stripStr (splitFirst (stripStr s) ';'))
    rw [if_neg (by rw [h2]; simp), if_pos h3]

/-- C8 witness: the three branches at concrete tag values. -/
theorem c8_tpe_branches_witness :
    (tagArtistOf ⟨none, none, none, none, some "A/B", none⟩).1 = some (stripStr "A/B") ∧
    (tagArtistOf ⟨none, none, none, some "A/B", none, none⟩).1 =
      some (stripStr (splitFirst (stripStr "A/B") '/')) ∧
    (tagArtistOf ⟨none, none, none, some "A;B", none, none⟩).1 =
      some (stripStr (splitFirst (stripStr "A;B") ';')) :=
  ⟨(c8_tpe_branches ⟨none, none, none, none, some "A/B", none⟩).1 "A/B" rfl rfl,
   (c8_tpe_branches ⟨none, none, none, some "A/B", none, none⟩).2.1 "A/B" rfl (by decide),
   (c8_tpe_branches ⟨none, none, none, some "A;B", none, none⟩).2.2 "A;B" rfl
     (by decide) (by decide)⟩

/-- Reduction of `search_cover` on a present response. -/
lemma searchCover_some (title artist : String) (songs : List Song) :
    searchCover title artist (some songs) =
      (match songs.find? (fun s => coverMatch title artist s && albumTruthy s.albummid) with
       | some s =>
         (match s.albummid with
          | some m => some (coverUrl m)
          | none => none)
       | none => firstAlbumURL songs) := rfl

/-! ## C9 — cover-search fallback -/

/-- C9, counterexample: a response whose single song matches neither title
nor artist still yields that song's album-image URL, not the default cover
path. -/
theorem c9_counterexample :
    coverMatch "T" "A" ⟨"X", "Y", some "M"⟩ = false ∧
    coverValue "T" "A" (some [⟨"X", "Y", some "M"⟩]) = coverUrl "M" ∧
    coverValue "T" "A" (some [⟨"X", "Y", some "M"⟩]) ≠ "/music/default_cover.jpg" := by
  decide

/-- C9, amended: when no listed song substring-matches both the title and the
artist, the cover is the image URL built from the FIRST listed song's album
identifier when that identifier is present and non-empty; the fixed default
cover path is used only when the list is empty or the first song has no
truthy album identifier. -/
theorem c9_no_match_fallback (title artist : String) (songs : List Song)
    (h : ∀ s ∈ songs, coverMatch title artist s = false) :
    coverValue title artist (some songs) = firstAlbumFallback songs := by
  have hfind : songs.find?
      (fun s => coverMatch title artist s && albumTruthy s.albummid) = none := by
    rw [List.find?_eq_none]
    intro x hx
    simp [h x hx]
  unfold coverValue
  rw [searchCover_some title artist songs, hfind]
  rfl

set_option maxHeartbeats 2000000 in
/-- C9 witness: the amended fallback at the concrete non-matching response. -/
theorem c9_no_match_fallback_witness :
    coverValue "T" "A" (some [⟨"X", "Y", some "M"⟩]) = coverUrl "M" :=
  (c9_no_match_fallback "T" "A" [⟨"X", "Y", some "M"⟩] (by decide)).trans (by decide)

/-- The two-token branch returns one of its two tokens as the artist. -/
lemma parseParts_two_fst (freq : String → Nat) (orig p1 p2 : String) :
    (parseParts freq orig [p1, p2]).1 = some p1 ∨ (parseParts freq orig [p1, p2]).1 = some p2 := by
  simp only [parseParts]
  by_cases h1 : (if isLikelyArtist freq p2 then 2 else 0)
      + (if isLikelySongTitle freq p1 then 1 else 0)
      < (if isLikelyArtist freq p1 then 2 else 0)
      + (if isLikelySongTitle freq p2 then 1 else 0)
  · rw [if_pos h1]
    left
    rfl
  · rw [if_neg h1]
    by_cases h2 : (if isLikelyArtist freq p1 then 2 else 0)
        + (if isLikelySongTitle freq p2 then 1 else 0)
        < (if isLikelyArtist freq p2 then 2 else 0)
        + (if isLikelySongTitle freq p1 then 1 else 0)
    · rw [if_pos h2]
      right
      rfl
    · rw [if_neg h2]
      left
      rfl

/-! ## C10 — the artist is a token and the title uses the rest -/

/-- C10: whenever the parser returns an artist, that artist is one of the
input tokens, and on ≥3 tokens the returned title is computed by
`titleOfRest` from the token list with the chosen artist index removed. -/
theorem c10_artist_is_token (freq : String → Nat) (stem a : String)
    (h : (parseFilename freq stem).1 = some a) :
    a ∈ splitFilename stem ∧
    (3 ≤ (splitFilename stem).length →
      ∃ b, b < (splitFilename stem).length ∧
        a = (splitFilename stem).getD b "" ∧
        (parseFilename freq stem).2 = titleOfRest a (removeAt (splitFilename stem) b)) := by
  unfold parseFilename at h ⊢
  rcases hsp : splitFilename stem with _ | ⟨p1, _ | ⟨p2, _ | ⟨p3, rest⟩⟩⟩
  · rw [hsp] at h
    simp [parseParts] at h
  · rw [hsp] at h
    simp [parseParts] at h
  · rw [hsp] at h
    constructor
    · rcases parseParts_two_fst freq stem p1 p2 with h1 | h1 <;>
        rw [h1, Option.some.injEq] at h <;> rw [← h] <;> simp
    · intro h3
      simp at h3
  · rw [hsp] at h
    have hne : (p1 :: p2 :: p3 :: rest) ≠ ([] : List String) := by simp
    obtain ⟨hlt, _, _⟩ := bestIdxOf_spec freq (p1 :: p2 :: p3 :: rest) hne
    simp only [parseParts, parseMulti] at h
    rw [Option.some.injEq] at h
    constructor
    · rw [← h]
      exact getD_mem_of_lt _ _ hlt
    · intro _
      refine ⟨bestIdxOf freq (p1 :: p2 :: p3 :: rest), hlt, h.symm, ?_⟩
      rw [← h]
      simp only [parseParts, parseMulti]

set_option maxHeartbeats 2000000 in
/-- C10 witness: the invariant at a concrete three-token stem. -/
theorem c10_artist_is_token_witness :
    "cd" ∈ splitFilename "abcde1-ab-cd" ∧
    (3 ≤ (splitFilename "abcde1-ab-cd").length →
      ∃ b, b < (splitFilename "abcde1-ab-cd").length ∧
        "cd" = (splitFilename "abcde1-ab-cd").getD b "" ∧
        (parseFilename zeroFreq "abcde1-ab-cd").2 =
          titleOfRest "cd" (removeAt (splitFilename "abcde1-ab-cd") b)) :=
  c10_artist_is_token zeroFreq "abcde1-ab-cd" "cd" (by decide)
